import Mathlib

/-!
Verification of the RBAC role-binding reconciliation engine
(`RemoveFromProjectOptions.Run` and its helpers in the `policy` package).

The engine removes requested users and groups from all role bindings of a
namespace.  We embed the data model (subjects, role bindings), the string-set
operations of `k8s.io/apimachinery/pkg/util/sets` that the code uses, the
per-binding reconciliation step, the binding sort, and the whole `Run`
function, modelling the external list and mutation collaborators explicitly.
Side effects (update/delete calls and report lines written to the output
stream) are recorded in a single ordered event trace so that temporal
properties about their relative order can be stated.
-/

/-- An RBAC subject: kind (`"User"`, `"Group"`, `"ServiceAccount"` or other),
optional namespace and name, as in `rbacv1.Subject`. -/
structure Subject where
  kind : String
  ns : String
  name : String
deriving DecidableEq

/-- A role binding: object name and namespace, role reference (name and kind)
and the ordered subject list, as in `rbacv1.RoleBinding` (the fields `Run`
reads). -/
structure RoleBinding where
  name : String
  ns : String
  roleRefName : String
  roleRefKind : String
  subjects : List Subject
deriving DecidableEq

/-- The options of `RemoveFromProjectOptions` that `Run` consults:
requested users and groups, the binding namespace, whether the dry-run
strategy is `DryRunClient`, and the `-o` output format string (non-empty
means structured output / accumulate mode). -/
structure Options where
  users : List String
  groups : List String
  bindingNamespace : String
  dryRun : Bool
  output : String
deriving DecidableEq

/-- A call dispatched to the mutation sink (`o.Client.RoleBindings(ns)`):
`update` carries the mutated binding, `delete` the namespace and binding
name. -/
inductive MutCall where
  | update (b : RoleBinding)
  | delete (ns : String) (name : String)
deriving DecidableEq

/-- One observable effect of the engine: a mutation call or a report line
written to `o.Out`. -/
inductive Event where
  | call (c : MutCall)
  | line (s : String)
deriving DecidableEq

/-- The mutable state threaded through `Run`'s loop: the four aggregate
removed sets, the accumulated `updatedBindings.Items`, and the trace of
calls and report lines in the order they happened. -/
structure RunState where
  usersRemoved : List String
  groupsRemoved : List String
  sasRemoved : List String
  othersRemoved : List String
  updatedBindings : List RoleBinding
  events : List Event
deriving DecidableEq

/-- The state in which `Run` starts: empty sets, no accumulated bindings,
no events. -/
def initState : RunState := ⟨[], [], [], [], [], []⟩

/-- Result of a whole run: listing failure, mutation failure (with the state
at the moment of failure), structured-output mode printing the accumulated
binding list, or normal completion. -/
inductive RunResult where
  | backendError
  | mutationError (st : RunState)
  | printed (bindings : List RoleBinding) (st : RunState)
  | ok (st : RunState)
deriving DecidableEq

/-! ### String sets (`sets.String`)

A Go `sets.String` is a hash set of strings; `Insert` adds elements,
`Difference` filters, `List()` returns the sorted element list.  We model a
set by its insertion-ordered duplicate-free element list; `strSetSortedList`
realises `List()`. -/

/-- `s.Insert(xs...)`: add each element of `xs` not already present. -/
def strSetInsert (s : List String) (xs : List String) : List String :=
  xs.foldl (fun acc x => if acc.contains x then acc else acc ++ [x]) s

/-- `sets.NewString(xs...)`. -/
def strSetOfList (xs : List String) : List String :=
  strSetInsert [] xs

/-- `a.Difference(b)`: elements of `a` not in `b`. -/
def strSetDiff (a b : List String) : List String :=
  a.filter (fun x => !(b.contains x))

/-- Lexicographic strict order on character lists, as Go compares strings
(byte-wise, which for valid UTF-8 agrees with code-point order). -/
def charListLt : List Char → List Char → Bool
  | _, [] => false
  | [], _ :: _ => true
  | a :: as, b :: bs => if a = b then charListLt as bs else decide (a < b)

/-- Go's `s1 <= s2` on strings. -/
def strLe (a b : String) : Bool :=
  !(charListLt b.data a.data)

/-- `s.List()`: the elements in sorted order. -/
def strSetSortedList (s : List String) : List String :=
  s.insertionSort (fun a b => strLe a b = true)

/-- Go's `%v` rendering of a string slice: `[a b c]`. -/
def fmtStrList (l : List String) : String :=
  "[" ++ String.intercalate " " l ++ "]"

/-! ### Subject classification and removal -/

/-- `subjectsStrings`: classify a subject list into the four category buckets
(users, groups, service accounts, others), rendering service accounts as
`namespace/name` and others as `kind/namespace/name`, preserving order. -/
def subjectsStrings : List Subject → List String × List String × List String × List String
  | [] => ([], [], [], [])
  | s :: rest =>
    let (us, gs, sas, os) := subjectsStrings rest
    if s.kind == "ServiceAccount" then (us, gs, (s.ns ++ "/" ++ s.name) :: sas, os)
    else if s.kind == "User" then (s.name :: us, gs, sas, os)
    else if s.kind == "Group" then (us, s.name :: gs, sas, os)
    else (us, gs, sas, (s.kind ++ "/" ++ s.ns ++ "/" ++ s.name) :: os)

/-- Modelled from the spec: `authorizationutil.BuildRBACSubjects` (from
`openshift/library-go`) is not part of this source tree.  Per §3 and §4.2 of
the spec, the removal request consists of target users and target groups,
which become `User` and `Group` subjects; these kinds have no namespace
component. -/
def BuildRBACSubjects (users groups : List String) : List Subject :=
  users.map (fun u => ⟨"User", "", u⟩) ++ groups.map (fun g => ⟨"Group", "", g⟩)

/-- Modelled from the spec: `removeSubjects` is declared in this package but
its definition is not in the source tree.  Per §4.2 of the spec: produce a
new subject sequence containing every original subject except those whose
`(kind, name)` matches a subject to remove (namespace irrelevant for
User/Group matching), preserving the relative order of survivors; the second
component reports whether anything was removed (the caller ignores it). -/
def removeSubjects (subjects toRemove : List Subject) : List Subject × Bool :=
  (subjects.filter (fun s => !(toRemove.any (fun t => t.kind == s.kind && t.name == s.name))),
   subjects.any (fun s => toRemove.any (fun t => t.kind == s.kind && t.name == s.name)))

/-- The subjects to remove, built once per run from the request. -/
def subjectsToRemove (o : Options) : List Subject :=
  BuildRBACSubjects o.users o.groups

/-- The dry-run marker appended to every report line when the strategy is
`DryRunClient`. -/
def dryRunTextOf (o : Options) : String :=
  if o.dryRun then " (dry client run)" else ""

/-! ### The reconciliation loop -/

/-- The text of one per-binding report line:
`"Removing <roleDisplayName> from <category> <names> in project <ns><dryRunText>.\n"`. -/
def removingLine (cat : String) (du : List String) (rdn proj dtext : String) : String :=
  "Removing " ++ rdn ++ " from " ++ cat ++ " " ++ fmtStrList du ++ " in project " ++
    proj ++ dtext ++ ".\n"

/-- One `if diff := old.Difference(new); len(diff) != 0 { ... }` block of
`Run`: given the sorted diff list of one category, either do nothing or emit
the report line and insert the diff into the aggregate removed set. -/
def reportCat (cat : String) (du : List String) (rdn proj dtext : String)
    (removedAcc : List String) (events : List Event) : List String × List Event :=
  if du.isEmpty then (removedAcc, events)
  else (strSetInsert removedAcc du, events ++ [Event.line (removingLine cat du rdn proj dtext)])

/-- The text of one not-found report line:
`"<Category> <names> were not bound to roles in project <ns><dryRunText>.\n"`. -/
def notBoundLine (cat : String) (du : List String) (proj dtext : String) : String :=
  cat ++ " " ++ fmtStrList du ++ " were not bound to roles in project " ++ proj ++ dtext ++ ".\n"

/-- One `if diff := requested.Difference(removed); len(diff) != 0` block at
the end of `Run`: the not-found report line for one category. -/
def notFoundLine (cat : String) (du : List String) (proj dtext : String) : List Event :=
  if du.isEmpty then []
  else [Event.line (notBoundLine cat du proj dtext)]

/-- The remaining subject list of a binding after filtering:
`removeSubjects(currBinding.Subjects, subjectsToRemove)` (first component;
the boolean is discarded by the caller). -/
def filteredSubjects (o : Options) (b : RoleBinding) : List Subject :=
  (removeSubjects b.subjects (subjectsToRemove o)).1

/-- The mutation call dispatched for a binding with a diff: update with the
filtered binding when subjects remain, otherwise delete by name. -/
def bindingCall (o : Options) (b : RoleBinding) : MutCall :=
  if (filteredSubjects o b).length > 0 then
    MutCall.update { b with subjects := filteredSubjects o b }
  else MutCall.delete o.bindingNamespace b.name

/-- `roleDisplayName`: `namespace/roleName`, shortened to the bare role name
for `ClusterRole` references. -/
def roleDisplayNameOf (b : RoleBinding) : String :=
  if b.roleRefKind == "ClusterRole" then b.roleRefName
  else b.ns ++ "/" ++ b.roleRefName

/-- `old.Difference(new).List()` for one category: the sorted removed-identity
list, starting from the raw classified string lists. -/
def catDiff (old new : List String) : List String :=
  strSetSortedList (strSetDiff (strSetOfList old) (strSetOfList new))

/-- The reporting tail of the loop body: the four category blocks, each
emitting a line and feeding the aggregate removed set when its diff is
non-empty. -/
def reportPhase (o : Options) (b : RoleBinding) (st1 : RunState) : RunState :=
  let old4 := subjectsStrings b.subjects
  let new4 := subjectsStrings (filteredSubjects o b)
  let rdn := roleDisplayNameOf b
  let dtext := dryRunTextOf o
  let r1 := reportCat "users" (catDiff old4.1 new4.1)
    rdn o.bindingNamespace dtext st1.usersRemoved st1.events
  let r2 := reportCat "groups" (catDiff old4.2.1 new4.2.1)
    rdn o.bindingNamespace dtext st1.groupsRemoved r1.2
  let r3 := reportCat "serviceaccounts" (catDiff old4.2.2.1 new4.2.2.1)
    rdn o.bindingNamespace dtext st1.sasRemoved r2.2
  let r4 := reportCat "subjects" (catDiff old4.2.2.2 new4.2.2.2)
    rdn o.bindingNamespace dtext st1.othersRemoved r3.2
  { st1 with usersRemoved := r1.1, groupsRemoved := r2.1, sasRemoved := r3.1,
             othersRemoved := r4.1, events := r4.2 }

/-- The body of `Run`'s `for _, currBinding := range roleBindings.Items`
loop for one binding: classify the original subjects, filter, classify the
remainder, then skip / accumulate / dispatch and report.  `.error` models
the `return err` after a failed update or delete. -/
def processBinding (o : Options) (sink : MutCall → Bool) (st : RunState)
    (b : RoleBinding) : Except RunState RunState :=
  let newSubjects := filteredSubjects o b
  if newSubjects.length == b.subjects.length then .ok st
  else if o.output.length > 0 then
    .ok { st with updatedBindings := st.updatedBindings ++ [{ b with subjects := newSubjects }] }
  else
    let dispatched : Except RunState RunState :=
      if !o.dryRun then
        let st1 := { st with events := st.events ++ [Event.call (bindingCall o b)] }
        if sink (bindingCall o b) then .ok st1 else .error st1
      else .ok st
    match dispatched with
    | .error st1 => .error st1
    | .ok st1 => .ok (reportPhase o b st1)

/-- The per-binding loop: process bindings in order, aborting on the first
mutation error. -/
def runLoop (o : Options) (sink : MutCall → Bool) :
    RunState → List RoleBinding → Except RunState RunState
  | st, [] => .ok st
  | st, b :: rest =>
    match processBinding o sink st b with
    | .ok st' => runLoop o sink st' rest
    | .error st' => .error st'

/-- `sort.Sort(sort.Reverse(roleBindingSorter(items)))`: sort the bindings
into descending name order (insertion sort is one implementation of the
unspecified-stability Go sort). -/
def sortBindings (items : List RoleBinding) : List RoleBinding :=
  items.insertionSort (fun a b => strLe b.name a.name = true)

/-- `RemoveFromProjectOptions.Run`.  `listResult = none` models a listing
failure (`BackendError`); otherwise the bindings are sorted, the loop runs,
and in normal mode the two not-found report lines are appended, while in
structured-output mode the accumulated binding list is handed to the
printer instead. -/
def Run (o : Options) (listResult : Option (List RoleBinding))
    (sink : MutCall → Bool) : RunResult :=
  match listResult with
  | none => .backendError
  | some items =>
    match runLoop o sink initState (sortBindings items) with
    | .error st => .mutationError st
    | .ok st =>
      if o.output.length > 0 then .printed st.updatedBindings st
      else
        let dtext := dryRunTextOf o
        let ev1 := st.events ++ notFoundLine "Users"
          (strSetSortedList (strSetDiff (strSetOfList o.users) st.usersRemoved))
          o.bindingNamespace dtext
        let ev2 := ev1 ++ notFoundLine "Groups"
          (strSetSortedList (strSetDiff (strSetOfList o.groups) st.groupsRemoved))
          o.bindingNamespace dtext
        .ok { st with events := ev2 }

/-! ### Observations on traces and results -/

/-- The mutation calls recorded in an event trace, in order. -/
def callsIn (events : List Event) : List MutCall :=
  events.filterMap (fun e => match e with | .call c => some c | .line _ => none)

/-- The report lines recorded in an event trace, in order. -/
def linesIn (events : List Event) : List String :=
  events.filterMap (fun e => match e with | .call _ => none | .line s => some s)

/-- The state carried by either side of the loop's `Except`. -/
def exceptState : Except RunState RunState → RunState
  | .ok st => st
  | .error st => st

/-- The final state of a run result (`initState` for a listing failure,
which happens before any state exists). -/
def resultState : RunResult → RunState
  | .backendError => initState
  | .mutationError st => st
  | .printed _ st => st
  | .ok st => st

/-- A subject is a removal target of the request iff its kind and name match
a requested user or group. -/
def targeted (o : Options) (s : Subject) : Bool :=
  (s.kind == "User" && o.users.contains s.name) ||
  (s.kind == "Group" && o.groups.contains s.name)

/-! ### Basic lemmas about traces and string sets -/

theorem callsIn_append (a b : List Event) : callsIn (a ++ b) = callsIn a ++ callsIn b :=
  List.filterMap_append a b _

theorem linesIn_append (a b : List Event) : linesIn (a ++ b) = linesIn a ++ linesIn b :=
  List.filterMap_append a b _

theorem callsIn_line (s : String) : callsIn [Event.line s] = [] := rfl

theorem callsIn_call (c : MutCall) : callsIn [Event.call c] = [c] := rfl

theorem linesIn_line (s : String) : linesIn [Event.line s] = [s] := rfl

theorem linesIn_call (c : MutCall) : linesIn [Event.call c] = [] := rfl

theorem strSetDiff_self (a : List String) : strSetDiff a a = [] := by
  rw [strSetDiff, List.filter_eq_nil_iff]
  intro x hx
  simp [hx]

theorem strSetSortedList_nil : strSetSortedList [] = [] := rfl

/-! ### The lexicographic order on strings -/

theorem charListLt_irrefl : ∀ x, charListLt x x = false
  | [] => rfl
  | _ :: as => by simp [charListLt, charListLt_irrefl as]

theorem charListLt_trans :
    ∀ (x y z : List Char), charListLt x y = true → charListLt y z = true →
      charListLt x z = true
  | _, _, [], _, h2 => by simp [charListLt] at h2
  | x, [], _ :: _, h1, _ => by cases x <;> simp [charListLt] at h1
  | [], _ :: _, _ :: _, _, _ => by simp [charListLt]
  | a :: as, b :: bs, c :: cs, h1, h2 => by
    simp only [charListLt] at h1 h2 ⊢
    by_cases hab : a = b
    · subst hab
      rw [if_pos rfl] at h1
      by_cases hac : a = c
      · subst hac
        rw [if_pos rfl] at h2 ⊢
        exact charListLt_trans as bs cs h1 h2
      · rw [if_neg hac] at h2 ⊢
        exact h2
    · rw [if_neg hab] at h1
      have hab' : a < b := of_decide_eq_true h1
      by_cases hbc : b = c
      · subst hbc
        rw [if_neg hab]
        exact h1
      · rw [if_neg hbc] at h2
        have hbc' : b < c := of_decide_eq_true h2
        have hac' : a < c := lt_trans hab' hbc'
        rw [if_neg (ne_of_lt hac')]
        exact decide_eq_true hac'

theorem charListLt_connex :
    ∀ (x y : List Char), x ≠ y → charListLt x y = true ∨ charListLt y x = true
  | [], [], h => absurd rfl h
  | [], _ :: _, _ => Or.inl (by simp [charListLt])
  | _ :: _, [], _ => Or.inr (by simp [charListLt])
  | a :: as, b :: bs, h => by
    by_cases hab : a = b
    · subst hab
      have hne : as ≠ bs := by
        intro he; exact h (by rw [he])
      rcases charListLt_connex as bs hne with h1 | h1
      · exact Or.inl (by simp [charListLt, h1])
      · exact Or.inr (by simp [charListLt, h1])
    · rcases lt_or_gt_of_ne hab with hl | hl
      · exact Or.inl (by simp [charListLt, hab, hl])
      · exact Or.inr (by simp [charListLt, Ne.symm hab, hl])

theorem strLe_refl (a : String) : strLe a a = true := by
  simp [strLe, charListLt_irrefl]

theorem strLe_total (a b : String) : strLe a b = true ∨ strLe b a = true := by
  by_cases h : charListLt b.data a.data = true
  · right
    simp only [strLe, Bool.not_eq_true']
    by_contra h2
    simp only [Bool.not_eq_false] at h2
    have := charListLt_trans _ _ _ h h2
    rw [charListLt_irrefl] at this
    exact Bool.false_ne_true this
  · left
    simp [strLe, Bool.not_eq_true] at h ⊢
    exact h

theorem string_eq_of_data_eq {a b : String} (h : a.data = b.data) : a = b :=
  congrArg String.mk h

theorem strLe_trans {a b c : String} (h1 : strLe a b = true) (h2 : strLe b c = true) :
    strLe a c = true := by
  simp only [strLe, Bool.not_eq_true'] at h1 h2 ⊢
  by_contra h3
  simp only [Bool.not_eq_false] at h3
  by_cases hcb : c.data = b.data
  · rw [hcb] at h3
    rw [h3] at h1
    exact Bool.noConfusion h1
  · rcases charListLt_connex _ _ hcb with h4 | h4
    · rw [h4] at h2
      exact Bool.noConfusion h2
    · have h5 := charListLt_trans _ _ _ h4 h3
      rw [h5] at h1
      exact Bool.noConfusion h1

theorem strLe_antisymm {a b : String} (h1 : strLe a b = true) (h2 : strLe b a = true) :
    a = b := by
  simp only [strLe, Bool.not_eq_true'] at h1 h2
  by_contra hne
  have hd : a.data ≠ b.data := fun h => hne (string_eq_of_data_eq h)
  rcases charListLt_connex _ _ hd with h3 | h3
  · rw [h3] at h2; exact Bool.noConfusion h2
  · rw [h3] at h1; exact Bool.noConfusion h1

instance : IsTotal String (fun a b => strLe a b = true) := ⟨strLe_total⟩

instance : IsTrans String (fun a b => strLe a b = true) := ⟨fun _ _ _ => strLe_trans⟩

instance : IsAntisymm String (fun a b => strLe a b = true) := ⟨fun _ _ => strLe_antisymm⟩

instance : IsTotal String (fun a b => strLe b a = true) := ⟨fun a b => (strLe_total a b).symm⟩

instance : IsTrans String (fun a b => strLe b a = true) :=
  ⟨fun _ _ _ h1 h2 => strLe_trans h2 h1⟩

instance : IsAntisymm String (fun a b => strLe b a = true) :=
  ⟨fun _ _ h1 h2 => strLe_antisymm h2 h1⟩

instance : IsTotal RoleBinding (fun a b => strLe b.name a.name = true) :=
  ⟨fun a b => (strLe_total a.name b.name).symm⟩

instance : IsTrans RoleBinding (fun a b => strLe b.name a.name = true) :=
  ⟨fun _ _ _ h1 h2 => strLe_trans h2 h1⟩

/-! ### Equations of the loop body -/

theorem processBinding_skip (o : Options) (sink : MutCall → Bool) (st : RunState)
    (b : RoleBinding) (h : (filteredSubjects o b).length = b.subjects.length) :
    processBinding o sink st b = .ok st := by
  simp [processBinding, h]

theorem processBinding_accum (o : Options) (sink : MutCall → Bool) (st : RunState)
    (b : RoleBinding) (h : (filteredSubjects o b).length ≠ b.subjects.length)
    (hout : o.output.length > 0) :
    processBinding o sink st b =
      .ok { st with updatedBindings :=
              st.updatedBindings ++ [{ b with subjects := filteredSubjects o b }] } := by
  simp [processBinding, h, hout]

theorem processBinding_dry (o : Options) (sink : MutCall → Bool) (st : RunState)
    (b : RoleBinding) (h : (filteredSubjects o b).length ≠ b.subjects.length)
    (hout : o.output.length = 0) (hdry : o.dryRun = true) :
    processBinding o sink st b = .ok (reportPhase o b st) := by
  simp [processBinding, h, hout, hdry]

theorem processBinding_live_ok (o : Options) (sink : MutCall → Bool) (st : RunState)
    (b : RoleBinding) (h : (filteredSubjects o b).length ≠ b.subjects.length)
    (hout : o.output.length = 0) (hdry : o.dryRun = false)
    (hs : sink (bindingCall o b) = true) :
    processBinding o sink st b =
      .ok (reportPhase o b { st with events := st.events ++ [Event.call (bindingCall o b)] }) := by
  simp [processBinding, h, hout, hdry, hs]

theorem processBinding_live_err (o : Options) (sink : MutCall → Bool) (st : RunState)
    (b : RoleBinding) (h : (filteredSubjects o b).length ≠ b.subjects.length)
    (hout : o.output.length = 0) (hdry : o.dryRun = false)
    (hs : sink (bindingCall o b) = false) :
    processBinding o sink st b =
      .error { st with events := st.events ++ [Event.call (bindingCall o b)] } := by
  simp [processBinding, h, hout, hdry, hs]

theorem runLoop_nil (o : Options) (sink : MutCall → Bool) (st : RunState) :
    runLoop o sink st [] = .ok st := rfl

theorem runLoop_cons_ok (o : Options) (sink : MutCall → Bool) {st st' : RunState}
    {b : RoleBinding} (bs : List RoleBinding) (h : processBinding o sink st b = .ok st') :
    runLoop o sink st (b :: bs) = runLoop o sink st' bs := by
  simp [runLoop, h]

theorem runLoop_cons_err (o : Options) (sink : MutCall → Bool) {st st' : RunState}
    {b : RoleBinding} (bs : List RoleBinding) (h : processBinding o sink st b = .error st') :
    runLoop o sink st (b :: bs) = .error st' := by
  simp [runLoop, h]

/-! ### Characterizing the report phase -/

theorem reportCat_fst (cat : String) (du : List String) (rdn proj dtext : String)
    (acc : List String) (ev : List Event) :
    (reportCat cat du rdn proj dtext acc ev).1 =
      if du.isEmpty then acc else strSetInsert acc du := by
  unfold reportCat; split <;> rfl

theorem reportCat_snd (cat : String) (du : List String) (rdn proj dtext : String)
    (acc : List String) (ev : List Event) :
    (reportCat cat du rdn proj dtext acc ev).2 =
      ev ++ (if du.isEmpty then [] else [Event.line (removingLine cat du rdn proj dtext)]) := by
  unfold reportCat; split <;> simp

/-- The per-binding removed-user diff: `oldUsersSet.Difference(newUsersSet).List()`. -/
def userDiffOf (o : Options) (b : RoleBinding) : List String :=
  catDiff (subjectsStrings b.subjects).1 (subjectsStrings (filteredSubjects o b)).1

/-- The per-binding removed-group diff. -/
def groupDiffOf (o : Options) (b : RoleBinding) : List String :=
  catDiff (subjectsStrings b.subjects).2.1 (subjectsStrings (filteredSubjects o b)).2.1

/-- The per-binding removed-service-account diff. -/
def saDiffOf (o : Options) (b : RoleBinding) : List String :=
  catDiff (subjectsStrings b.subjects).2.2.1 (subjectsStrings (filteredSubjects o b)).2.2.1

/-- The per-binding removed-other-subject diff. -/
def otherDiffOf (o : Options) (b : RoleBinding) : List String :=
  catDiff (subjectsStrings b.subjects).2.2.2 (subjectsStrings (filteredSubjects o b)).2.2.2

/-- The report lines a binding with a diff produces: one line per non-empty
category diff, in the order users, groups, serviceaccounts, subjects. -/
def catLinesOf (o : Options) (b : RoleBinding) : List String :=
  (if (userDiffOf o b).isEmpty then [] else
    [removingLine "users" (userDiffOf o b) (roleDisplayNameOf b) o.bindingNamespace (dryRunTextOf o)]) ++
  (if (groupDiffOf o b).isEmpty then [] else
    [removingLine "groups" (groupDiffOf o b) (roleDisplayNameOf b) o.bindingNamespace (dryRunTextOf o)]) ++
  (if (saDiffOf o b).isEmpty then [] else
    [removingLine "serviceaccounts" (saDiffOf o b) (roleDisplayNameOf b) o.bindingNamespace (dryRunTextOf o)]) ++
  (if (otherDiffOf o b).isEmpty then [] else
    [removingLine "subjects" (otherDiffOf o b) (roleDisplayNameOf b) o.bindingNamespace (dryRunTextOf o)])

theorem reportPhase_events (o : Options) (b : RoleBinding) (st : RunState) :
    (reportPhase o b st).events = st.events ++ (catLinesOf o b).map Event.line := by
  simp only [reportPhase, catLinesOf, userDiffOf, groupDiffOf, saDiffOf, otherDiffOf,
    reportCat_snd, List.map_append, List.append_assoc, apply_ite (List.map Event.line),
    List.map_cons, List.map_nil]

theorem reportPhase_usersRemoved (o : Options) (b : RoleBinding) (st : RunState) :
    (reportPhase o b st).usersRemoved =
      if (userDiffOf o b).isEmpty then st.usersRemoved
      else strSetInsert st.usersRemoved (userDiffOf o b) := by
  simp only [reportPhase, reportCat_fst, userDiffOf]

theorem reportPhase_groupsRemoved (o : Options) (b : RoleBinding) (st : RunState) :
    (reportPhase o b st).groupsRemoved =
      if (groupDiffOf o b).isEmpty then st.groupsRemoved
      else strSetInsert st.groupsRemoved (groupDiffOf o b) := by
  simp only [reportPhase, reportCat_fst, groupDiffOf]

theorem reportPhase_sasRemoved (o : Options) (b : RoleBinding) (st : RunState) :
    (reportPhase o b st).sasRemoved =
      if (saDiffOf o b).isEmpty then st.sasRemoved
      else strSetInsert st.sasRemoved (saDiffOf o b) := by
  simp only [reportPhase, reportCat_fst, saDiffOf]

theorem reportPhase_othersRemoved (o : Options) (b : RoleBinding) (st : RunState) :
    (reportPhase o b st).othersRemoved =
      if (otherDiffOf o b).isEmpty then st.othersRemoved
      else strSetInsert st.othersRemoved (otherDiffOf o b) := by
  simp only [reportPhase, reportCat_fst, otherDiffOf]

theorem reportPhase_updatedBindings (o : Options) (b : RoleBinding) (st : RunState) :
    (reportPhase o b st).updatedBindings = st.updatedBindings := rfl

theorem linesIn_map_line (l : List String) : linesIn (l.map Event.line) = l := by
  induction l with
  | nil => rfl
  | cons a t ih => simpa [linesIn] using ih

theorem callsIn_map_line (l : List String) : callsIn (l.map Event.line) = [] := by
  induction l with
  | nil => rfl
  | cons a t ih => simp [callsIn, ih]

theorem reportPhase_linesIn (o : Options) (b : RoleBinding) (st : RunState) :
    linesIn (reportPhase o b st).events = linesIn st.events ++ catLinesOf o b := by
  rw [reportPhase_events, linesIn_append, linesIn_map_line]

theorem reportPhase_callsIn (o : Options) (b : RoleBinding) (st : RunState) :
    callsIn (reportPhase o b st).events = callsIn st.events := by
  rw [reportPhase_events, callsIn_append, callsIn_map_line, List.append_nil]

/-! ### Characterizing subject removal -/

theorem any_toRemove_eq_targeted (o : Options) (s : Subject) :
    ((subjectsToRemove o).any (fun t => t.kind == s.kind && t.name == s.name)) =
      targeted o s := by
  rw [Bool.eq_iff_iff]
  simp only [subjectsToRemove, BuildRBACSubjects, targeted, List.any_eq_true,
    List.mem_append, List.mem_map, Bool.and_eq_true, Bool.or_eq_true, beq_iff_eq,
    List.elem_iff, decide_eq_true_eq]
  constructor
  · rintro ⟨t, (⟨u, hu, rfl⟩ | ⟨g, hg, rfl⟩), hk, hn⟩
    · exact Or.inl ⟨hk.symm, hn ▸ hu⟩
    · exact Or.inr ⟨hk.symm, hn ▸ hg⟩
  · rintro (⟨hk, hn⟩ | ⟨hk, hn⟩)
    · exact ⟨⟨"User", "", s.name⟩, Or.inl ⟨s.name, hn, rfl⟩, hk.symm, rfl⟩
    · exact ⟨⟨"Group", "", s.name⟩, Or.inr ⟨s.name, hn, rfl⟩, hk.symm, rfl⟩

theorem filteredSubjects_eq_filter (o : Options) (b : RoleBinding) :
    filteredSubjects o b = b.subjects.filter (fun s => !(targeted o s)) := by
  unfold filteredSubjects removeSubjects
  refine List.filter_congr ?_
  intro s _
  rw [any_toRemove_eq_targeted]

theorem filteredSubjects_sublist (o : Options) (b : RoleBinding) :
    (filteredSubjects o b).Sublist b.subjects := by
  rw [filteredSubjects_eq_filter]
  exact List.filter_sublist b.subjects

theorem filteredSubjects_of_no_match (o : Options) (b : RoleBinding)
    (h : ∀ s ∈ b.subjects, targeted o s = false) :
    filteredSubjects o b = b.subjects := by
  rw [filteredSubjects_eq_filter]
  refine List.filter_eq_self.mpr ?_
  intro s hs
  simp [h s hs]

/-! ### Only User and Group subjects are ever removed -/

theorem targeted_kind (o : Options) (s : Subject) (h : targeted o s = true) :
    s.kind = "User" ∨ s.kind = "Group" := by
  simp only [targeted, Bool.or_eq_true, Bool.and_eq_true, beq_iff_eq] at h
  rcases h with ⟨hk, _⟩ | ⟨hk, _⟩
  · exact Or.inl hk
  · exact Or.inr hk

theorem subjectsStrings_cons (s : Subject) (rest : List Subject) :
    subjectsStrings (s :: rest) =
      if s.kind == "ServiceAccount" then
        ((subjectsStrings rest).1, (subjectsStrings rest).2.1,
         (s.ns ++ "/" ++ s.name) :: (subjectsStrings rest).2.2.1, (subjectsStrings rest).2.2.2)
      else if s.kind == "User" then
        (s.name :: (subjectsStrings rest).1, (subjectsStrings rest).2.1,
         (subjectsStrings rest).2.2.1, (subjectsStrings rest).2.2.2)
      else if s.kind == "Group" then
        ((subjectsStrings rest).1, s.name :: (subjectsStrings rest).2.1,
         (subjectsStrings rest).2.2.1, (subjectsStrings rest).2.2.2)
      else
        ((subjectsStrings rest).1, (subjectsStrings rest).2.1, (subjectsStrings rest).2.2.1,
         (s.kind ++ "/" ++ s.ns ++ "/" ++ s.name) :: (subjectsStrings rest).2.2.2) := by
  rcases hsr : subjectsStrings rest with ⟨us, gs, sas, os⟩
  rw [subjectsStrings, hsr]

theorem sas_of_filter (o : Options) (l : List Subject) :
    (subjectsStrings (l.filter (fun s => !(targeted o s)))).2.2.1 =
      (subjectsStrings l).2.2.1 := by
  induction l with
  | nil => rfl
  | cons s t ih =>
    rw [List.filter_cons]
    by_cases ht : targeted o s = true
    · simp only [ht, Bool.not_true, if_false]
      rcases targeted_kind o s ht with hk | hk <;>
        simp [subjectsStrings_cons, hk, ih]
    · have ht' : targeted o s = false := by
        cases hq : targeted o s
        · rfl
        · exact absurd hq ht
      simp only [ht', Bool.not_false, if_true]
      rw [subjectsStrings_cons, subjectsStrings_cons]
      split_ifs <;> simp [ih]

theorem others_of_filter (o : Options) (l : List Subject) :
    (subjectsStrings (l.filter (fun s => !(targeted o s)))).2.2.2 =
      (subjectsStrings l).2.2.2 := by
  induction l with
  | nil => rfl
  | cons s t ih =>
    rw [List.filter_cons]
    by_cases ht : targeted o s = true
    · simp only [ht, Bool.not_true, if_false]
      rcases targeted_kind o s ht with hk | hk <;>
        simp [subjectsStrings_cons, hk, ih]
    · have ht' : targeted o s = false := by
        cases hq : targeted o s
        · rfl
        · exact absurd hq ht
      simp only [ht', Bool.not_false, if_true]
      rw [subjectsStrings_cons, subjectsStrings_cons]
      split_ifs <;> simp [ih]

theorem saDiffOf_empty (o : Options) (b : RoleBinding) : saDiffOf o b = [] := by
  unfold saDiffOf catDiff
  rw [filteredSubjects_eq_filter, sas_of_filter, strSetDiff_self, strSetSortedList_nil]

theorem otherDiffOf_empty (o : Options) (b : RoleBinding) : otherDiffOf o b = [] := by
  unfold otherDiffOf catDiff
  rw [filteredSubjects_eq_filter, others_of_filter, strSetDiff_self, strSetSortedList_nil]

theorem processBinding_sas_others (o : Options) (sink : MutCall → Bool) (st : RunState)
    (b : RoleBinding) :
    (exceptState (processBinding o sink st b)).sasRemoved = st.sasRemoved ∧
    (exceptState (processBinding o sink st b)).othersRemoved = st.othersRemoved := by
  by_cases h : (filteredSubjects o b).length = b.subjects.length
  · rw [processBinding_skip o sink st b h]; exact ⟨rfl, rfl⟩
  · by_cases hout : o.output.length > 0
    · rw [processBinding_accum o sink st b h hout]; exact ⟨rfl, rfl⟩
    · have hout0 : o.output.length = 0 := Nat.eq_zero_of_not_pos hout
      cases hdry : o.dryRun
      · cases hs : sink (bindingCall o b)
        · rw [processBinding_live_err o sink st b h hout0 hdry hs]
          exact ⟨rfl, rfl⟩
        · rw [processBinding_live_ok o sink st b h hout0 hdry hs]
          simp [exceptState, reportPhase_sasRemoved, reportPhase_othersRemoved,
            saDiffOf_empty, otherDiffOf_empty]
      · rw [processBinding_dry o sink st b h hout0 hdry]
        simp [exceptState, reportPhase_sasRemoved, reportPhase_othersRemoved,
          saDiffOf_empty, otherDiffOf_empty]

theorem runLoop_sas_others (o : Options) (sink : MutCall → Bool) :
    ∀ (bs : List RoleBinding) (st : RunState),
      (exceptState (runLoop o sink st bs)).sasRemoved = st.sasRemoved ∧
      (exceptState (runLoop o sink st bs)).othersRemoved = st.othersRemoved := by
  intro bs
  induction bs with
  | nil => intro st; exact ⟨rfl, rfl⟩
  | cons b t ih =>
    intro st
    have h1 := processBinding_sas_others o sink st b
    cases hp : processBinding o sink st b with
    | ok st' =>
      rw [hp] at h1
      rw [runLoop_cons_ok o sink t hp]
      exact ⟨(ih st').1.trans h1.1, (ih st').2.trans h1.2⟩
    | error st' =>
      rw [hp] at h1
      rw [runLoop_cons_err o sink t hp]
      exact h1

/-- Subjects that are neither `User` nor `Group`. -/
def nonUG (s : Subject) : Bool :=
  !(s.kind == "User") && !(s.kind == "Group")

theorem nonUG_subjects_preserved (o : Options) (b : RoleBinding) :
    (filteredSubjects o b).filter nonUG = b.subjects.filter nonUG := by
  rw [filteredSubjects_eq_filter, List.filter_filter]
  refine List.filter_congr ?_
  intro s _
  cases ht : targeted o s
  · simp [ht]
  · rcases targeted_kind o s ht with hk | hk <;> simp [nonUG, hk, ht]

theorem run_sas_others (o : Options) (listResult : Option (List RoleBinding))
    (sink : MutCall → Bool) :
    (resultState (Run o listResult sink)).sasRemoved = [] ∧
    (resultState (Run o listResult sink)).othersRemoved = [] := by
  cases listResult with
  | none => exact ⟨rfl, rfl⟩
  | some items =>
    have h1 := runLoop_sas_others o sink (sortBindings items) initState
    rw [Run]
    cases hr : runLoop o sink initState (sortBindings items) with
    | error st =>
      rw [hr] at h1
      exact h1
    | ok st =>
      rw [hr] at h1
      by_cases hout : o.output.length > 0
      · simp only [hout, if_pos]
        exact h1
      · simp only [hout, if_neg]
        exact h1

/-! ### Dispatch and event-trace structure -/

theorem processBinding_callsIn_live (o : Options) (sink : MutCall → Bool) (st : RunState)
    (b : RoleBinding) (h : (filteredSubjects o b).length ≠ b.subjects.length)
    (hout : o.output.length = 0) (hdry : o.dryRun = false) :
    callsIn (exceptState (processBinding o sink st b)).events =
      callsIn st.events ++ [bindingCall o b] := by
  cases hs : sink (bindingCall o b)
  · rw [processBinding_live_err o sink st b h hout hdry hs]
    simp [exceptState, callsIn_append, callsIn_call]
  · rw [processBinding_live_ok o sink st b h hout hdry hs]
    simp [exceptState, reportPhase_callsIn, callsIn_append, callsIn_call]

theorem processBinding_events_mono (o : Options) (sink : MutCall → Bool) (st : RunState)
    (b : RoleBinding) :
    ∃ t, (exceptState (processBinding o sink st b)).events = st.events ++ t := by
  by_cases h : (filteredSubjects o b).length = b.subjects.length
  · rw [processBinding_skip o sink st b h]
    exact ⟨[], by simp [exceptState]⟩
  · by_cases hout : o.output.length > 0
    · rw [processBinding_accum o sink st b h hout]
      exact ⟨[], by simp [exceptState]⟩
    · have hout0 : o.output.length = 0 := Nat.eq_zero_of_not_pos hout
      cases hdry : o.dryRun
      · cases hs : sink (bindingCall o b)
        · rw [processBinding_live_err o sink st b h hout0 hdry hs]
          exact ⟨[Event.call (bindingCall o b)], rfl⟩
        · rw [processBinding_live_ok o sink st b h hout0 hdry hs]
          refine ⟨[Event.call (bindingCall o b)] ++ (catLinesOf o b).map Event.line, ?_⟩
          simp [exceptState, reportPhase_events]
      · rw [processBinding_dry o sink st b h hout0 hdry]
        exact ⟨(catLinesOf o b).map Event.line, by simp [exceptState, reportPhase_events]⟩

theorem runLoop_events_mono (o : Options) (sink : MutCall → Bool) :
    ∀ (bs : List RoleBinding) (st : RunState),
      ∃ t, (exceptState (runLoop o sink st bs)).events = st.events ++ t := by
  intro bs
  induction bs with
  | nil => intro st; exact ⟨[], by simp [exceptState, runLoop_nil]⟩
  | cons b t ih =>
    intro st
    have h1 := processBinding_events_mono o sink st b
    cases hp : processBinding o sink st b with
    | ok st' =>
      rw [hp] at h1
      obtain ⟨t1, ht1⟩ := h1
      simp only [exceptState] at ht1
      obtain ⟨t2, ht2⟩ := ih st'
      rw [runLoop_cons_ok o sink t hp]
      exact ⟨t1 ++ t2, by rw [ht2, ht1, List.append_assoc]⟩
    | error st' =>
      rw [hp] at h1
      rw [runLoop_cons_err o sink t hp]
      exact h1

/-- The binding collected in structured-output mode, when its subject list
changed. -/
def accumPick (o : Options) (b : RoleBinding) : Option RoleBinding :=
  if (filteredSubjects o b).length = b.subjects.length then none
  else some { b with subjects := filteredSubjects o b }

theorem runLoop_accum (o : Options) (sink : MutCall → Bool) (hout : 0 < o.output.length) :
    ∀ (bs : List RoleBinding) (st : RunState),
      runLoop o sink st bs =
        .ok { st with updatedBindings := st.updatedBindings ++ bs.filterMap (accumPick o) } := by
  intro bs
  induction bs with
  | nil => intro st; simp [runLoop_nil]
  | cons b t ih =>
    intro st
    by_cases h : (filteredSubjects o b).length = b.subjects.length
    · rw [runLoop_cons_ok o sink t (processBinding_skip o sink st b h), ih]
      simp [accumPick, List.filterMap_cons, h]
    · rw [runLoop_cons_ok o sink t (processBinding_accum o sink st b h hout), ih]
      simp [accumPick, List.filterMap_cons, h]

/-! ### Claim theorems -/

/-- C1: the action for each binding is decided solely by comparing the
remaining subject count to the original one: equal counts mean the binding
is skipped untouched (no dispatch, no report contribution, no accumulation);
zero remaining with a non-empty original means the sink's delete is invoked
by binding name; a count strictly in between means the sink's update is
invoked with the filtered binding (dispatch in live normal mode). -/
theorem c1_action_determined_by_counts (o : Options) (sink : MutCall → Bool)
    (st : RunState) (b : RoleBinding) :
    ((filteredSubjects o b).length = b.subjects.length →
        processBinding o sink st b = .ok st) ∧
    (o.output = "" → o.dryRun = false →
      (((filteredSubjects o b).length = 0 → b.subjects ≠ [] →
          callsIn (exceptState (processBinding o sink st b)).events =
            callsIn st.events ++ [MutCall.delete o.bindingNamespace b.name]) ∧
       (0 < (filteredSubjects o b).length →
          (filteredSubjects o b).length < b.subjects.length →
          callsIn (exceptState (processBinding o sink st b)).events =
            callsIn st.events ++ [MutCall.update { b with subjects := filteredSubjects o b }]))) := by
  refine ⟨processBinding_skip o sink st b, ?_⟩
  intro hout hdry
  have hout0 : o.output.length = 0 := by rw [hout]; rfl
  constructor
  · intro hzero hne
    have hlen : (filteredSubjects o b).length ≠ b.subjects.length := by
      rw [hzero]
      intro hc
      exact hne (List.length_eq_zero.mp hc.symm)
    have hc : bindingCall o b = MutCall.delete o.bindingNamespace b.name := by
      simp [bindingCall, hzero]
    rw [processBinding_callsIn_live o sink st b hlen hout0 hdry, hc]
  · intro hpos hlt
    have hlen : (filteredSubjects o b).length ≠ b.subjects.length := ne_of_lt hlt
    have hc : bindingCall o b = MutCall.update { b with subjects := filteredSubjects o b } := by
      simp [bindingCall, hpos]
    rw [processBinding_callsIn_live o sink st b hlen hout0 hdry, hc]

theorem c1_witness :
    callsIn (exceptState (processBinding ⟨["u"], [], "p", false, ""⟩ (fun _ => true) initState
        ⟨"rb", "p", "admin", "ClusterRole", [⟨"User", "", "u"⟩, ⟨"User", "", "v"⟩]⟩)).events =
      [MutCall.update ⟨"rb", "p", "admin", "ClusterRole", [⟨"User", "", "v"⟩]⟩] := by
  have h := ((c1_action_determined_by_counts ⟨["u"], [], "p", false, ""⟩ (fun _ => true) initState
      ⟨"rb", "p", "admin", "ClusterRole", [⟨"User", "", "u"⟩, ⟨"User", "", "v"⟩]⟩).2
      rfl rfl).2 (by decide) (by decide)
  exact h.trans (by decide)

/-- C2: the Subject Set Remover returns exactly the subjects whose
`(kind, name)` does not match a requested user or group (namespace plays no
role), as an order-preserving subsequence of the original list; every
occurrence of a targeted identity is removed. -/
theorem c2_remove_subjects_exact (users groups : List String) (subjects : List Subject) :
    (removeSubjects subjects (BuildRBACSubjects users groups)).1 =
        subjects.filter (fun s => !(targeted ⟨users, groups, "", false, ""⟩ s)) ∧
    ((removeSubjects subjects (BuildRBACSubjects users groups)).1).Sublist subjects ∧
    (∀ s, targeted ⟨users, groups, "", false, ""⟩ s = true →
        s ∉ (removeSubjects subjects (BuildRBACSubjects users groups)).1) := by
  have h1 := filteredSubjects_eq_filter ⟨users, groups, "", false, ""⟩
    ⟨"", "", "", "", subjects⟩
  have h2 := filteredSubjects_sublist ⟨users, groups, "", false, ""⟩
    ⟨"", "", "", "", subjects⟩
  refine ⟨h1, h2, ?_⟩
  intro s hs hmem
  rw [show (removeSubjects subjects (BuildRBACSubjects users groups)).1 =
      subjects.filter (fun s => !(targeted ⟨users, groups, "", false, ""⟩ s)) from h1] at hmem
  have hp := List.of_mem_filter hmem
  rw [hs] at hp
  exact Bool.noConfusion hp

theorem c2_witness :
    (removeSubjects [⟨"User", "", "u"⟩, ⟨"User", "", "u"⟩, ⟨"Group", "", "g"⟩]
        (BuildRBACSubjects ["u"] [])).1 = [⟨"Group", "", "g"⟩] ∧
    (⟨"User", "", "u"⟩ : Subject) ∉
      (removeSubjects [⟨"User", "", "u"⟩, ⟨"User", "", "u"⟩, ⟨"Group", "", "g"⟩]
        (BuildRBACSubjects ["u"] [])).1 :=
  ⟨by decide,
   (c2_remove_subjects_exact ["u"] []
      [⟨"User", "", "u"⟩, ⟨"User", "", "u"⟩, ⟨"Group", "", "g"⟩]).2.2 _ (by decide)⟩

/-- C6: in accumulate-only (structured output) mode the engine dispatches no
update or delete call and writes no report line (its event trace is empty);
it returns, instead of a report, the list of every post-filter binding whose
subject list changed — including ones whose filtered list is empty — each
carrying its filtered subject list. -/
theorem c6_accumulate_mode (o : Options) (items : List RoleBinding) (sink : MutCall → Bool)
    (hout : 0 < o.output.length) :
    ∃ st, Run o (some items) sink =
        .printed ((sortBindings items).filterMap (accumPick o)) st ∧ st.events = [] := by
  refine ⟨{ initState with updatedBindings := (sortBindings items).filterMap (accumPick o) }, ?_, rfl⟩
  simp only [Run]
  rw [runLoop_accum o sink hout (sortBindings items) initState]
  simp [hout, initState]

theorem c6_witness :
    ∃ st, Run ⟨["u"], [], "p", false, "json"⟩
        (some [⟨"rb", "p", "admin", "ClusterRole", [⟨"User", "", "u"⟩]⟩]) (fun _ => true) =
      .printed [⟨"rb", "p", "admin", "ClusterRole", []⟩] st ∧ st.events = [] := by
  obtain ⟨st, h1, h2⟩ := c6_accumulate_mode ⟨["u"], [], "p", false, "json"⟩
    [⟨"rb", "p", "admin", "ClusterRole", [⟨"User", "", "u"⟩]⟩] (fun _ => true) (by decide)
  have he : (sortBindings [⟨"rb", "p", "admin", "ClusterRole", [⟨"User", "", "u"⟩]⟩]).filterMap
      (accumPick ⟨["u"], [], "p", false, "json"⟩) = [⟨"rb", "p", "admin", "ClusterRole", []⟩] := by
    decide
  rw [he] at h1
  exact ⟨st, h1, h2⟩

/-- C7: a listing failure aborts the run before any mutation (the result is
`backendError` and the trace is empty); a mutation failure aborts the
per-binding loop immediately with that error (the remaining bindings are not
processed), and the trace at failure extends the earlier trace — mutations
already dispatched remain, with no rollback. -/
theorem c7_failure_semantics :
    (∀ (o : Options) (sink : MutCall → Bool),
        Run o none sink = .backendError ∧ (resultState (Run o none sink)).events = []) ∧
    (∀ (o : Options) (sink : MutCall → Bool) (st st' : RunState) (b : RoleBinding)
        (bs : List RoleBinding),
        processBinding o sink st b = .error st' →
        runLoop o sink st (b :: bs) = .error st') ∧
    (∀ (o : Options) (sink : MutCall → Bool) (st st' : RunState) (bs : List RoleBinding),
        runLoop o sink st bs = .error st' → ∃ t, st'.events = st.events ++ t) := by
  refine ⟨fun o sink => ⟨rfl, rfl⟩,
    fun o sink st st' b bs h => runLoop_cons_err o sink bs h, ?_⟩
  intro o sink st st' bs h
  have hm := runLoop_events_mono o sink bs st
  rw [h] at hm
  exact hm

theorem c7_witness :
    runLoop ⟨["u"], [], "p", false, ""⟩ (fun _ => false) initState
        [⟨"a", "p", "admin", "ClusterRole", [⟨"User", "", "u"⟩]⟩,
         ⟨"b", "p", "admin", "ClusterRole", [⟨"User", "", "u"⟩]⟩] =
      .error { initState with events := [Event.call (MutCall.delete "p" "a")] } :=
  c7_failure_semantics.2.1 ⟨["u"], [], "p", false, ""⟩ (fun _ => false) initState
    { initState with events := [Event.call (MutCall.delete "p" "a")] }
    ⟨"a", "p", "admin", "ClusterRole", [⟨"User", "", "u"⟩]⟩
    [⟨"b", "p", "admin", "ClusterRole", [⟨"User", "", "u"⟩]⟩] (by rfl)

/-- C8: only `User` and `Group` subjects are ever removed from any binding:
subjects of any other kind (`ServiceAccount` included) survive the filtering
of every binding unchanged, and the aggregate `sasRemoved` and
`othersRemoved` sets are empty at the end of every run, in every mode and
for every outcome. -/
theorem c8_only_user_group_removed :
    (∀ (o : Options) (b : RoleBinding),
        (filteredSubjects o b).filter nonUG = b.subjects.filter nonUG) ∧
    (∀ (o : Options) (listResult : Option (List RoleBinding)) (sink : MutCall → Bool),
        (resultState (Run o listResult sink)).sasRemoved = [] ∧
        (resultState (Run o listResult sink)).othersRemoved = []) :=
  ⟨nonUG_subjects_preserved, run_sas_others⟩

/-- C10: in live normal mode, the mutation call for a binding with a diff is
recorded in the trace strictly before that binding's report lines; when the
call fails, the loop body returns the error with the call recorded and no
report line written for that binding. -/
theorem c10_call_before_lines (o : Options) (sink : MutCall → Bool) (st : RunState)
    (b : RoleBinding) (hout : o.output = "") (hdry : o.dryRun = false)
    (hdiff : (filteredSubjects o b).length ≠ b.subjects.length) :
    (sink (bindingCall o b) = true →
      processBinding o sink st b =
        .ok (reportPhase o b { st with events := st.events ++ [Event.call (bindingCall o b)] }) ∧
      (reportPhase o b { st with events := st.events ++ [Event.call (bindingCall o b)] }).events =
        st.events ++ Event.call (bindingCall o b) :: (catLinesOf o b).map Event.line) ∧
    (sink (bindingCall o b) = false →
      processBinding o sink st b =
        .error { st with events := st.events ++ [Event.call (bindingCall o b)] } ∧
      linesIn (st.events ++ [Event.call (bindingCall o b)]) = linesIn st.events) := by
  have hout0 : o.output.length = 0 := by rw [hout]; rfl
  constructor
  · intro hs
    refine ⟨processBinding_live_ok o sink st b hdiff hout0 hdry hs, ?_⟩
    rw [reportPhase_events]
    simp
  · intro hs
    refine ⟨processBinding_live_err o sink st b hdiff hout0 hdry hs, ?_⟩
    rw [linesIn_append]
    simp [linesIn_call]

theorem c10_witness :
    processBinding ⟨["u"], [], "p", false, ""⟩ (fun _ => false) initState
        ⟨"rb", "p", "admin", "ClusterRole", [⟨"User", "", "u"⟩]⟩ =
      .error { initState with events := [Event.call (MutCall.delete "p" "rb")] } ∧
    linesIn [Event.call (MutCall.delete "p" "rb")] = [] := by
  have h := (c10_call_before_lines ⟨["u"], [], "p", false, ""⟩ (fun _ => false) initState
      ⟨"rb", "p", "admin", "ClusterRole", [⟨"User", "", "u"⟩]⟩ rfl rfl (by decide)).2 rfl
  exact ⟨h.1.trans (by rfl), by decide⟩

/-- A binding none of whose subjects is targeted is skipped entirely. -/
theorem processBinding_untouched (o : Options) (sink : MutCall → Bool) (st : RunState)
    (b : RoleBinding) (h : ∀ s ∈ b.subjects, targeted o s = false) :
    processBinding o sink st b = .ok st :=
  processBinding_skip o sink st b (by rw [filteredSubjects_of_no_match o b h])

/-- C9: in live normal mode a binding with a diff contributes exactly one
report line per affected category, of the form
`"Removing <roleDisplayName> from <category> <names> in project <ns>.\n"`
with `roleDisplayName` shortened to the bare role name for `ClusterRole`
references; a binding sharing no identity with the request produces no
report line and is never dispatched. -/
theorem c9_report_lines (o : Options) (sink : MutCall → Bool) (st : RunState)
    (b : RoleBinding) :
    ((∀ s ∈ b.subjects, targeted o s = false) → processBinding o sink st b = .ok st) ∧
    (∀ st', o.output = "" → o.dryRun = false →
      (filteredSubjects o b).length ≠ b.subjects.length →
      processBinding o sink st b = .ok st' →
      linesIn st'.events = linesIn st.events ++ catLinesOf o b) ∧
    (o.dryRun = false → ∀ cat du,
      removingLine cat du (roleDisplayNameOf b) o.bindingNamespace (dryRunTextOf o) =
        "Removing " ++ roleDisplayNameOf b ++ " from " ++ cat ++ " " ++ fmtStrList du ++
          " in project " ++ o.bindingNamespace ++ ".\n") := by
  refine ⟨processBinding_untouched o sink st b, ?_, ?_⟩
  · intro st' hout hdry hdiff hp
    have hout0 : o.output.length = 0 := by rw [hout]; rfl
    cases hs : sink (bindingCall o b)
    · rw [processBinding_live_err o sink st b hdiff hout0 hdry hs] at hp
      exact Except.noConfusion hp
    · rw [processBinding_live_ok o sink st b hdiff hout0 hdry hs] at hp
      have hst : st' = reportPhase o b
          { st with events := st.events ++ [Event.call (bindingCall o b)] } :=
        (Except.ok.injEq _ _).mp hp.symm
      rw [hst, reportPhase_linesIn, linesIn_append, linesIn_call, List.append_nil]
  · intro hdry cat du
    rw [removingLine, dryRunTextOf, hdry]
    simp [String.append_empty]

theorem c9_witness :
    catLinesOf ⟨["u"], [], "p", false, ""⟩
        ⟨"rb", "p", "admin", "ClusterRole", [⟨"User", "", "u"⟩]⟩ =
      ["Removing admin from users [u] in project p.\n"] ∧
    linesIn
        [Event.call (MutCall.delete "p" "rb"),
         Event.line "Removing admin from users [u] in project p.\n"] =
      linesIn initState.events ++ catLinesOf ⟨["u"], [], "p", false, ""⟩
        ⟨"rb", "p", "admin", "ClusterRole", [⟨"User", "", "u"⟩]⟩ :=
  ⟨by decide,
   (c9_report_lines ⟨["u"], [], "p", false, ""⟩ (fun _ => true) initState
      ⟨"rb", "p", "admin", "ClusterRole", [⟨"User", "", "u"⟩]⟩).2.1
     ⟨["u"], [], [], [], [],
      [Event.call (MutCall.delete "p" "rb"),
       Event.line "Removing admin from users [u] in project p.\n"]⟩
     rfl rfl (by decide) (by rfl)⟩

/-- The three concrete bindings of the determinism test: identical apart
from their names. -/
def mkb (n : String) : RoleBinding :=
  ⟨n, "p", "admin", "ClusterRole", [⟨"User", "", "u"⟩]⟩

/-- The options of the determinism test: remove user `u`, live normal mode. -/
def opts3 : Options := ⟨["u"], [], "p", false, ""⟩

theorem run_sort_congr (o : Options) (sink : MutCall → Bool) {items₁ items₂ : List RoleBinding}
    (h : sortBindings items₁ = sortBindings items₂) :
    Run o (some items₁) sink = Run o (some items₂) sink := by
  simp only [Run, h]

/-- C3: the engine sorts once into descending name order before the loop
(the processed sequence is a permutation of the input, pairwise descending
by name), and for the three bindings named a, b, c — each with a diff — the
mutation calls and report lines happen in the order c, b, a, whatever the
input order. -/
theorem c3_descending_order :
    (∀ items : List RoleBinding,
        (sortBindings items).Perm items ∧
        (sortBindings items).Pairwise (fun a b => strLe b.name a.name = true)) ∧
    (∀ l : List RoleBinding, l.Perm [mkb "a", mkb "b", mkb "c"] →
        (resultState (Run opts3 (some l) (fun _ => true))).events =
          [Event.call (MutCall.delete "p" "c"),
           Event.line "Removing admin from users [u] in project p.\n",
           Event.call (MutCall.delete "p" "b"),
           Event.line "Removing admin from users [u] in project p.\n",
           Event.call (MutCall.delete "p" "a"),
           Event.line "Removing admin from users [u] in project p.\n"]) := by
  constructor
  · intro items
    exact ⟨List.perm_insertionSort _ items, List.sorted_insertionSort _ items⟩
  · intro l hperm
    have hsorted : (sortBindings l).Pairwise (fun a b => strLe b.name a.name = true) :=
      List.sorted_insertionSort _ l
    have hnames : ((sortBindings l).map RoleBinding.name).Pairwise
        (fun a b => strLe b a = true) :=
      List.Pairwise.map _ (fun a b hab => hab) hsorted
    have hpermn : ((sortBindings l).map RoleBinding.name).Perm ["c", "b", "a"] := by
      have h1 : ((sortBindings l).map RoleBinding.name).Perm (l.map RoleBinding.name) :=
        (List.perm_insertionSort _ l).map _
      have h2 := hperm.map RoleBinding.name
      exact h1.trans (h2.trans (by decide))
    have hnameseq : (sortBindings l).map RoleBinding.name = ["c", "b", "a"] :=
      List.eq_of_perm_of_sorted hpermn hnames (by decide)
    have hall : ∀ x ∈ sortBindings l, x = mkb x.name := by
      intro x hx
      have hx1 : x ∈ l := (List.perm_insertionSort _ l).mem_iff.mp hx
      have hx2 : x ∈ [mkb "a", mkb "b", mkb "c"] := hperm.mem_iff.mp hx1
      simp only [List.mem_cons, List.not_mem_nil, or_false] at hx2
      rcases hx2 with rfl | rfl | rfl <;> rfl
    have hmap : (sortBindings l).map (fun x => mkb x.name) = (sortBindings l).map id :=
      List.map_eq_map_iff.mpr (fun x hx => (hall x hx).symm)
    have hfinal : sortBindings l = [mkb "c", mkb "b", mkb "a"] := by
      calc sortBindings l = (sortBindings l).map id := (List.map_id _).symm
        _ = (sortBindings l).map (fun x => mkb x.name) := hmap.symm
        _ = ((sortBindings l).map RoleBinding.name).map mkb := by
              rw [List.map_map]; rfl
        _ = (["c", "b", "a"]).map mkb := by rw [hnameseq]
        _ = [mkb "c", mkb "b", mkb "a"] := rfl
    have hrun : Run opts3 (some l) (fun _ => true) =
        Run opts3 (some [mkb "c", mkb "b", mkb "a"]) (fun _ => true) := by
      apply run_sort_congr
      rw [hfinal]
      decide
    rw [hrun]
    decide

theorem c3_witness :
    (resultState (Run opts3 (some [mkb "a", mkb "b", mkb "c"]) (fun _ => true))).events =
      [Event.call (MutCall.delete "p" "c"),
       Event.line "Removing admin from users [u] in project p.\n",
       Event.call (MutCall.delete "p" "b"),
       Event.line "Removing admin from users [u] in project p.\n",
       Event.call (MutCall.delete "p" "a"),
       Event.line "Removing admin from users [u] in project p.\n"] :=
  c3_descending_order.2 [mkb "a", mkb "b", mkb "c"] (by decide)

/-! ### Normal-mode completion and not-found reporting -/

theorem processBinding_ok_of_sink_ok (o : Options) (sink : MutCall → Bool)
    (hsink : ∀ c, sink c = true) (st : RunState) (b : RoleBinding) :
    ∃ st', processBinding o sink st b = .ok st' := by
  by_cases h : (filteredSubjects o b).length = b.subjects.length
  · exact ⟨st, processBinding_skip o sink st b h⟩
  · by_cases hout : o.output.length > 0
    · exact ⟨_, processBinding_accum o sink st b h hout⟩
    · have hout0 : o.output.length = 0 := Nat.eq_zero_of_not_pos hout
      cases hdry : o.dryRun
      · exact ⟨_, processBinding_live_ok o sink st b h hout0 hdry (hsink _)⟩
      · exact ⟨_, processBinding_dry o sink st b h hout0 hdry⟩

theorem runLoop_ok_of_sink_ok (o : Options) (sink : MutCall → Bool)
    (hsink : ∀ c, sink c = true) :
    ∀ (bs : List RoleBinding) (st : RunState), ∃ st', runLoop o sink st bs = .ok st' := by
  intro bs
  induction bs with
  | nil => intro st; exact ⟨st, runLoop_nil o sink st⟩
  | cons b t ih =>
    intro st
    obtain ⟨st1, h1⟩ := processBinding_ok_of_sink_ok o sink hsink st b
    obtain ⟨st2, h2⟩ := ih st1
    exact ⟨st2, by rw [runLoop_cons_ok o sink t h1, h2]⟩

theorem runLoop_all_untouched (o : Options) (sink : MutCall → Bool) :
    ∀ (bs : List RoleBinding), (∀ b ∈ bs, ∀ s ∈ b.subjects, targeted o s = false) →
      ∀ st, runLoop o sink st bs = .ok st := by
  intro bs
  induction bs with
  | nil => intro _ st; exact runLoop_nil o sink st
  | cons b t ih =>
    intro h st
    rw [runLoop_cons_ok o sink t
      (processBinding_untouched o sink st b (h b (List.mem_cons_self b t)))]
    exact ih (fun b' hb' => h b' (List.mem_cons_of_mem b hb')) st

/-- C5: in normal (non-accumulating, non-dry) mode the run ends by computing,
per category, the set difference between the requested identities and the
aggregate removed set, emitting exactly one informational line per non-empty
difference, of the form
`"<Category> <names> were not bound to roles in project <ns>.\n"`; a
requested identity matching nothing anywhere yields zero mutation calls and
surfaces only in this not-found line. -/
theorem c5_not_found_reporting :
    (∀ (users groups : List String) (ns : String) (items : List RoleBinding)
        (sink : MutCall → Bool), (∀ c, sink c = true) →
      ∃ st, runLoop ⟨users, groups, ns, false, ""⟩ sink initState (sortBindings items) =
          .ok st ∧
        Run ⟨users, groups, ns, false, ""⟩ (some items) sink =
          .ok { st with events :=
            (st.events ++
              notFoundLine "Users"
                (strSetSortedList (strSetDiff (strSetOfList users) st.usersRemoved)) ns "" ++
              notFoundLine "Groups"
                (strSetSortedList (strSetDiff (strSetOfList groups) st.groupsRemoved)) ns "") }) ∧
    (∀ cat du proj, notBoundLine cat du proj "" =
        cat ++ " " ++ fmtStrList du ++ " were not bound to roles in project " ++ proj ++ ".\n") ∧
    (∀ (ns : String) (bindings : List RoleBinding),
      (∀ b ∈ bindings, ∀ s ∈ b.subjects, ¬(s.kind = "User" ∧ s.name = "alice")) →
      ∃ st, Run ⟨["alice"], [], ns, false, ""⟩ (some bindings) (fun _ => true) = .ok st ∧
        callsIn st.events = [] ∧
        st.events =
          [Event.line ("Users [alice] were not bound to roles in project " ++ ns ++ ".\n")]) := by
  refine ⟨?_, ?_, ?_⟩
  · intro users groups ns items sink hsink
    obtain ⟨st, hst⟩ :=
      runLoop_ok_of_sink_ok ⟨users, groups, ns, false, ""⟩ sink hsink (sortBindings items)
        initState
    refine ⟨st, hst, ?_⟩
    simp only [Run]
    rw [hst]
    rfl
  · intro cat du proj
    rw [notBoundLine, String.append_empty]
  · intro ns bindings h
    have huntouched : ∀ b ∈ sortBindings bindings, ∀ s ∈ b.subjects,
        targeted ⟨["alice"], [], ns, false, ""⟩ s = false := by
      intro b hb s hs
      have hb' : b ∈ bindings := (List.perm_insertionSort _ bindings).mem_iff.mp hb
      have hns := h b hb' s hs
      cases hq : targeted ⟨["alice"], [], ns, false, ""⟩ s
      · rfl
      · exfalso
        simp only [targeted, Bool.or_eq_true, Bool.and_eq_true, beq_iff_eq,
          List.elem_iff, List.mem_singleton, List.not_mem_nil] at hq
        rcases hq with ⟨hk, hn⟩ | ⟨_, hn⟩
        · exact hns ⟨hk, by simpa using hn⟩
        · simp at hn
    have hloop := runLoop_all_untouched ⟨["alice"], [], ns, false, ""⟩ (fun _ => true)
      (sortBindings bindings) huntouched initState
    refine ⟨{ initState with events :=
      [Event.line ("Users [alice] were not bound to roles in project " ++ ns ++ ".\n")] },
      ?_, rfl, rfl⟩
    simp only [Run]
    rw [hloop]
    have hline : notFoundLine "Users"
        (strSetSortedList (strSetDiff (strSetOfList ["alice"]) initState.usersRemoved)) ns "" =
        [Event.line ("Users [alice] were not bound to roles in project " ++ ns ++ ".\n")] := by
      rw [show strSetSortedList (strSetDiff (strSetOfList ["alice"]) initState.usersRemoved) =
            ["alice"] from rfl]
      rw [notFoundLine]
      rw [show (["alice"] : List String).isEmpty = false from rfl]
      simp only [Bool.false_eq_true, if_false]
      rw [notBoundLine, String.append_empty]
      rfl
    show RunResult.ok { initState with events :=
        (([] : List Event) ++
          notFoundLine "Users"
            (strSetSortedList (strSetDiff (strSetOfList ["alice"]) initState.usersRemoved)) ns "" ++
          notFoundLine "Groups"
            (strSetSortedList (strSetDiff (strSetOfList []) initState.groupsRemoved)) ns "") } =
      RunResult.ok { initState with events :=
        [Event.line ("Users [alice] were not bound to roles in project " ++ ns ++ ".\n")] }
    rw [hline]
    rw [show notFoundLine "Groups"
        (strSetSortedList (strSetDiff (strSetOfList []) initState.groupsRemoved)) ns "" =
        ([] : List Event) from rfl]
    simp

/-! ### Dry run versus live mode -/

/-- A dry-run report line is the corresponding live line with the
`" (dry client run)"` marker inserted before the terminal period. -/
def dryLineRel (d l : String) : Prop :=
  ∃ c, l = c ++ ".\n" ∧ d = c ++ " (dry client run).\n"

/-- The relation between a dry-run state and the corresponding live state:
identical diff aggregation and collected bindings, no calls in the dry
trace, and marker-related report lines. -/
def dryTwin (std stl : RunState) : Prop :=
  std.usersRemoved = stl.usersRemoved ∧ std.groupsRemoved = stl.groupsRemoved ∧
  std.sasRemoved = stl.sasRemoved ∧ std.othersRemoved = stl.othersRemoved ∧
  std.updatedBindings = stl.updatedBindings ∧
  callsIn std.events = [] ∧
  List.Forall₂ dryLineRel (linesIn std.events) (linesIn stl.events)

theorem removingLine_dryRel (cat : String) (du : List String) (rdn proj : String) :
    dryLineRel (removingLine cat du rdn proj " (dry client run)")
      (removingLine cat du rdn proj "") := by
  refine ⟨"Removing " ++ rdn ++ " from " ++ cat ++ " " ++ fmtStrList du ++ " in project " ++
    proj, ?_, ?_⟩
  · rw [removingLine, String.append_empty]
  · rw [removingLine, String.append_assoc,
      show (" (dry client run)" ++ ".\n" : String) = " (dry client run).\n" from by decide]

theorem notBoundLine_dryRel (cat : String) (du : List String) (proj : String) :
    dryLineRel (notBoundLine cat du proj " (dry client run)") (notBoundLine cat du proj "") := by
  refine ⟨cat ++ " " ++ fmtStrList du ++ " were not bound to roles in project " ++ proj,
    ?_, ?_⟩
  · rw [notBoundLine, String.append_empty]
  · rw [notBoundLine, String.append_assoc,
      show (" (dry client run)" ++ ".\n" : String) = " (dry client run).\n" from by decide]

theorem callsIn_notFoundLine (cat : String) (du : List String) (proj dtext : String) :
    callsIn (notFoundLine cat du proj dtext) = [] := by
  rw [notFoundLine]
  split <;> rfl

theorem linesIn_notFoundLine_rel (cat : String) (du : List String) (proj : String) :
    List.Forall₂ dryLineRel (linesIn (notFoundLine cat du proj " (dry client run)"))
      (linesIn (notFoundLine cat du proj "")) := by
  rw [notFoundLine, notFoundLine]
  split
  · exact List.Forall₂.nil
  · exact List.Forall₂.cons (notBoundLine_dryRel cat du proj) List.Forall₂.nil

theorem catLines_dryRel (users groups : List String) (ns : String) (b : RoleBinding) :
    List.Forall₂ dryLineRel (catLinesOf ⟨users, groups, ns, true, ""⟩ b)
      (catLinesOf ⟨users, groups, ns, false, ""⟩ b) := by
  unfold catLinesOf
  rw [show userDiffOf ⟨users, groups, ns, true, ""⟩ b =
        userDiffOf ⟨users, groups, ns, false, ""⟩ b from rfl,
      show groupDiffOf ⟨users, groups, ns, true, ""⟩ b =
        groupDiffOf ⟨users, groups, ns, false, ""⟩ b from rfl,
      show saDiffOf ⟨users, groups, ns, true, ""⟩ b =
        saDiffOf ⟨users, groups, ns, false, ""⟩ b from rfl,
      show otherDiffOf ⟨users, groups, ns, true, ""⟩ b =
        otherDiffOf ⟨users, groups, ns, false, ""⟩ b from rfl,
      show dryRunTextOf ⟨users, groups, ns, true, ""⟩ = " (dry client run)" from rfl,
      show dryRunTextOf ⟨users, groups, ns, false, ""⟩ = "" from rfl]
  refine List.rel_append (List.rel_append (List.rel_append ?_ ?_) ?_) ?_ <;>
    · split
      · exact List.Forall₂.nil
      · exact List.Forall₂.cons (removingLine_dryRel _ _ _ _) List.Forall₂.nil

theorem dryTwin_step (users groups : List String) (ns : String) (sink : MutCall → Bool)
    (b : RoleBinding) {std stl : RunState} (h : dryTwin std stl) :
    ∃ std' stl',
      processBinding ⟨users, groups, ns, true, ""⟩ sink std b = .ok std' ∧
      processBinding ⟨users, groups, ns, false, ""⟩ (fun _ => true) stl b = .ok stl' ∧
      dryTwin std' stl' := by
  obtain ⟨h1, h2, h3, h4, h5, h6, h7⟩ := h
  by_cases hlen : (filteredSubjects ⟨users, groups, ns, true, ""⟩ b).length = b.subjects.length
  · exact ⟨std, stl, processBinding_skip _ sink std b hlen,
      processBinding_skip _ _ stl b hlen, h1, h2, h3, h4, h5, h6, h7⟩
  · have hlenL : (filteredSubjects ⟨users, groups, ns, false, ""⟩ b).length ≠
        b.subjects.length := hlen
    refine ⟨reportPhase ⟨users, groups, ns, true, ""⟩ b std,
      reportPhase ⟨users, groups, ns, false, ""⟩ b
        { stl with events := stl.events ++
            [Event.call (bindingCall ⟨users, groups, ns, false, ""⟩ b)] },
      processBinding_dry _ sink std b hlen rfl rfl,
      processBinding_live_ok _ _ stl b hlenL rfl rfl rfl, ?_, ?_, ?_, ?_, ?_, ?_, ?_⟩
    · rw [reportPhase_usersRemoved, reportPhase_usersRemoved,
        show userDiffOf ⟨users, groups, ns, true, ""⟩ b =
          userDiffOf ⟨users, groups, ns, false, ""⟩ b from rfl, h1]
    · rw [reportPhase_groupsRemoved, reportPhase_groupsRemoved,
        show groupDiffOf ⟨users, groups, ns, true, ""⟩ b =
          groupDiffOf ⟨users, groups, ns, false, ""⟩ b from rfl, h2]
    · rw [reportPhase_sasRemoved, reportPhase_sasRemoved,
        show saDiffOf ⟨users, groups, ns, true, ""⟩ b =
          saDiffOf ⟨users, groups, ns, false, ""⟩ b from rfl, h3]
    · rw [reportPhase_othersRemoved, reportPhase_othersRemoved,
        show otherDiffOf ⟨users, groups, ns, true, ""⟩ b =
          otherDiffOf ⟨users, groups, ns, false, ""⟩ b from rfl, h4]
    · rw [reportPhase_updatedBindings, reportPhase_updatedBindings]
      exact h5
    · rw [reportPhase_callsIn]
      exact h6
    · have hl1 : linesIn ({ stl with events := stl.events ++
          [Event.call (bindingCall ⟨users, groups, ns, false, ""⟩ b)] } : RunState).events =
          linesIn stl.events := by
        show linesIn (stl.events ++
          [Event.call (bindingCall ⟨users, groups, ns, false, ""⟩ b)]) = linesIn stl.events
        rw [linesIn_append, linesIn_call, List.append_nil]
      rw [reportPhase_linesIn, reportPhase_linesIn, hl1]
      exact List.rel_append h7 (catLines_dryRel users groups ns b)

theorem dryTwin_loop (users groups : List String) (ns : String) (sink : MutCall → Bool) :
    ∀ (bs : List RoleBinding) {std stl : RunState}, dryTwin std stl →
      ∃ std' stl',
        runLoop ⟨users, groups, ns, true, ""⟩ sink std bs = .ok std' ∧
        runLoop ⟨users, groups, ns, false, ""⟩ (fun _ => true) stl bs = .ok stl' ∧
        dryTwin std' stl' := by
  intro bs
  induction bs with
  | nil => intro std stl h; exact ⟨std, stl, rfl, rfl, h⟩
  | cons b t ih =>
    intro std stl h
    obtain ⟨std1, stl1, hd, hl, hTwin1⟩ := dryTwin_step users groups ns sink b h
    obtain ⟨std2, stl2, hd2, hl2, hTwin2⟩ := ih hTwin1
    exact ⟨std2, stl2, by rw [runLoop_cons_ok _ sink t hd, hd2],
      by rw [runLoop_cons_ok _ _ t hl, hl2], hTwin2⟩

/-- C4 counterexample: with one binding carrying a diff, the dry-run report
output differs from the live output (every dry-run line carries the
`" (dry client run)"` marker), so the two outputs are not identical. -/
theorem c4_counterexample :
    linesIn (resultState (Run ⟨["u"], [], "p", true, ""⟩
        (some [mkb "rb"]) (fun _ => true))).events ≠
      linesIn (resultState (Run ⟨["u"], [], "p", false, ""⟩
        (some [mkb "rb"]) (fun _ => true))).events := by
  decide

/-- C4 (amended): for every input in normal textual mode, a dry-run
invocation performs the identical diff computation (same aggregate removed
sets), makes zero update/delete calls whatever the sink would answer, and
emits the same report lines as the successful live invocation except that
each line carries the `" (dry client run)"` marker before its terminal
period. -/
theorem c4_amended_dry_run (users groups : List String) (ns : String)
    (items : List RoleBinding) (sink : MutCall → Bool) :
    ∃ std stl,
      Run ⟨users, groups, ns, true, ""⟩ (some items) sink = .ok std ∧
      Run ⟨users, groups, ns, false, ""⟩ (some items) (fun _ => true) = .ok stl ∧
      std.usersRemoved = stl.usersRemoved ∧ std.groupsRemoved = stl.groupsRemoved ∧
      std.sasRemoved = stl.sasRemoved ∧ std.othersRemoved = stl.othersRemoved ∧
      callsIn std.events = [] ∧
      List.Forall₂ dryLineRel (linesIn std.events) (linesIn stl.events) := by
  obtain ⟨std, stl, hd, hl, h1, h2, h3, h4, h5, h6, h7⟩ :=
    dryTwin_loop users groups ns sink (sortBindings items)
      (⟨rfl, rfl, rfl, rfl, rfl, rfl, List.Forall₂.nil⟩ : dryTwin initState initState)
  refine ⟨{ std with events :=
      (std.events ++
        notFoundLine "Users"
          (strSetSortedList (strSetDiff (strSetOfList users) std.usersRemoved)) ns
          " (dry client run)" ++
        notFoundLine "Groups"
          (strSetSortedList (strSetDiff (strSetOfList groups) std.groupsRemoved)) ns
          " (dry client run)") },
    { stl with events :=
      (stl.events ++
        notFoundLine "Users"
          (strSetSortedList (strSetDiff (strSetOfList users) stl.usersRemoved)) ns "" ++
        notFoundLine "Groups"
          (strSetSortedList (strSetDiff (strSetOfList groups) stl.groupsRemoved)) ns "") },
    ?_, ?_, h1, h2, h3, h4, ?_, ?_⟩
  · simp only [Run]
    rw [hd]
    rfl
  · simp only [Run]
    rw [hl]
    rfl
  · simp only [callsIn_append, callsIn_notFoundLine, h6]
    rfl
  · simp only [linesIn_append]
    refine List.rel_append (List.rel_append h7 ?_) ?_
    · rw [h1]
      exact linesIn_notFoundLine_rel _ _ _
    · rw [h2]
      exact linesIn_notFoundLine_rel _ _ _

theorem c5_witness :
    ∃ st, Run ⟨["alice"], [], "p", false, ""⟩
        (some [⟨"rb", "p", "admin", "ClusterRole", [⟨"User", "", "bob"⟩]⟩])
        (fun _ => true) = .ok st ∧
      callsIn st.events = [] ∧
      st.events =
        [Event.line ("Users [alice] were not bound to roles in project " ++ "p" ++ ".\n")] :=
  c5_not_found_reporting.2.2 "p"
    [⟨"rb", "p", "admin", "ClusterRole", [⟨"User", "", "bob"⟩]⟩] (by decide)
